import Mathlib

/-!
The index classifier, the entry locator and the sink of javadocset.

A shallow embedding of `elementType.go`, `parser.go` and the `index` function of
`main.go`.

Go strings are modelled as lists of runes (`Str`).  For well-formed UTF-8 text
the byte-wise `strings.Contains` and `strings.HasSuffix` agree with the
rune-wise versions defined here.
-/

namespace Javadocset

/-! ## Strings -/

/-- A Go string, as its sequence of runes. -/
abbrev Str := List Char

/-- Go `strings.HasPrefix(s, prefix)`. -/
def HasPrefix : Str → Str → Bool
  | _, [] => true
  | [], _ :: _ => false
  | c :: s, p :: ps => c == p && HasPrefix s ps

/-- Go `strings.Contains(s, substr)`: `substr` occurs in `s` as a contiguous block. -/
def Contains : Str → Str → Bool
  | [], sub => HasPrefix [] sub
  | c :: s, sub => HasPrefix (c :: s) sub || Contains s sub

/-- Go `strings.HasSuffix(s, suffix)`. -/
def HasSuffix (s suffix : Str) : Bool :=
  HasPrefix s.reverse suffix.reverse

/-- Go `strings.ToLower(s)`: every rune is sent through `unicode.ToLower`, whose
table is not part of the repository and is the parameter `lower`. -/
def ToLower (lower : Char → Char) (s : Str) : Str :=
  s.map lower

/-! ## elementType.go -/

/-- The enumeration `ElementType` (`NotFound` is the `iota` value 0). -/
inductive ElementType where
  | NotFound
  | Class
  | Method
  | Field
  | Constructor
  | Interface
  | Exception
  | Error
  | Enum
  | Trait
  | Notation
  | Package
  deriving DecidableEq, Repr

/-- The map literal `VALUES`, as its list of key/value pairs. -/
def VALUES : List (ElementType × Str) :=
  [ (.Class, "Class".toList),
    (.Method, "Method".toList),
    (.Field, "Field".toList),
    (.Constructor, "Constructor".toList),
    (.Interface, "Interface".toList),
    (.Exception, "Exception".toList),
    (.Error, "Error".toList),
    (.Enum, "Enum".toList),
    (.Trait, "Trait".toList),
    (.Notation, "Notation".toList),
    (.Package, "Package".toList) ]

/-- Go map indexing `m[k]` on a `map[ElementType]string`: the zero value `""` for
a missing key. -/
def mapIndex (m : List (ElementType × Str)) (k : ElementType) : Str :=
  match m.lookup k with
  | some v => v
  | none => []

/-- The method `(e *ElementType) value()`. -/
def value (e : ElementType) : Str :=
  mapIndex VALUES e

/-! ## parser.go: the evaluators -/

/-- The type `Verifier func(string) bool`. -/
abbrev Verifier := Str → Bool

/-- The type `TypeEvaluator func(Verifier, Verifier) bool`. -/
abbrev TypeEvaluator := Verifier → Verifier → Bool

/-- The record `IndexEntry`. -/
structure IndexEntry where
  name : Str
  elementType : ElementType
  path : Str
  deriving DecidableEq, Repr

/-- The slice `ALL_ELEMENT_TYPES`. -/
def ALL_ELEMENT_TYPES : List ElementType :=
  [.Class, .Method, .Field, .Constructor, .Interface, .Exception, .Error, .Enum,
    .Trait, .Notation, .Package]

/-- The function `NewTypeEvaluators(a, others...)`. -/
def NewTypeEvaluators (a : TypeEvaluator) (others : List TypeEvaluator) :
    List TypeEvaluator :=
  a :: others

def isClass : TypeEvaluator := fun textContainsInsensitive dtClassNameHasSuffix =>
  textContainsInsensitive "class in".toList || textContainsInsensitive "- class".toList
    || dtClassNameHasSuffix "class".toList

def isStaticMethod : TypeEvaluator := fun textContainsInsensitive dtClassNameHasSuffix =>
  textContainsInsensitive "static method in".toList || dtClassNameHasSuffix "method".toList

def isStaticField : TypeEvaluator := fun textContainsInsensitive dtClassNameHasSuffix =>
  textContainsInsensitive "static variable in".toList
    || textContainsInsensitive "field in".toList || dtClassNameHasSuffix "field".toList

def isConstructor : TypeEvaluator := fun textContainsInsensitive dtClassNameHasSuffix =>
  textContainsInsensitive "constructor".toList || dtClassNameHasSuffix "constructor".toList

def isMethod : TypeEvaluator := fun textContainsInsensitive _ =>
  textContainsInsensitive "method in".toList

def isField : TypeEvaluator := fun textContainsInsensitive _ =>
  textContainsInsensitive "variable in".toList

def isInterface : TypeEvaluator := fun textContainsInsensitive dtClassNameHasSuffix =>
  textContainsInsensitive "interface in".toList
    || textContainsInsensitive "- interface".toList
    || dtClassNameHasSuffix "interface".toList

def isException : TypeEvaluator := fun textContainsInsensitive dtClassNameHasSuffix =>
  textContainsInsensitive "exception in".toList
    || textContainsInsensitive "- exception".toList
    || dtClassNameHasSuffix "exception".toList

def isError : TypeEvaluator := fun textContainsInsensitive dtClassNameHasSuffix =>
  textContainsInsensitive "error in".toList || textContainsInsensitive "- error".toList
    || dtClassNameHasSuffix "error".toList

def isEnum : TypeEvaluator := fun textContainsInsensitive dtClassNameHasSuffix =>
  textContainsInsensitive "enum in".toList || textContainsInsensitive "- enum".toList
    || dtClassNameHasSuffix "enum".toList

def isTrait : TypeEvaluator := fun textContainsInsensitive _ =>
  textContainsInsensitive "trait in".toList

def isNotation : TypeEvaluator := fun textContainsInsensitive dtClassNameHasSuffix =>
  textContainsInsensitive "annotation type".toList
    || dtClassNameHasSuffix "annotation".toList

def isPackage : TypeEvaluator := fun textContainsInsensitive dtClassNameHasSuffix =>
  textContainsInsensitive "package".toList || dtClassNameHasSuffix "package".toList

/-- The map `ELEMENT_TYPE_TO_TYPE_EVALUATORS`; indexing it at a key that is not
registered (`NotFound`) gives the nil slice. -/
def ELEMENT_TYPE_TO_TYPE_EVALUATORS : ElementType → List TypeEvaluator
  | .Class => NewTypeEvaluators isClass []
  | .Method => NewTypeEvaluators isStaticMethod [isMethod]
  | .Field => NewTypeEvaluators isStaticField [isField]
  | .Constructor => NewTypeEvaluators isConstructor []
  | .Interface => NewTypeEvaluators isInterface []
  | .Exception => NewTypeEvaluators isException []
  | .Error => NewTypeEvaluators isError []
  | .Enum => NewTypeEvaluators isEnum []
  | .Trait => NewTypeEvaluators isTrait []
  | .Notation => NewTypeEvaluators isNotation []
  | .Package => NewTypeEvaluators isPackage []
  | .NotFound => []

/-! ## parser.go: the type walk of `parseIndex` (lines 105-123) -/

/-- The inner loop over `typeEvaluators` (lines 111-118).  It returns the pair
`(tagType, tagTypeDetermined)` that holds when the loop is left. -/
def evaluatorLoop (elementType : ElementType) (textContainsInsensitive
    dtClassNameHasSuffix : Verifier) (tagType : ElementType) :
    List TypeEvaluator → ElementType × Bool
  | [] => (tagType, false)
  | evaluator :: rest =>
    if evaluator textContainsInsensitive dtClassNameHasSuffix then (elementType, true)
    else evaluatorLoop elementType textContainsInsensitive dtClassNameHasSuffix tagType rest

/-- The outer loop over a slice of element types (lines 107-123), started with the
current `tagType`; the value of `tagType` after the loop. -/
def typeWalk (textContainsInsensitive dtClassNameHasSuffix : Verifier)
    (tagType : ElementType) : List ElementType → ElementType
  | [] => tagType
  | elementType :: rest =>
    let r := evaluatorLoop elementType textContainsInsensitive dtClassNameHasSuffix
      tagType (ELEMENT_TYPE_TO_TYPE_EVALUATORS elementType)
    if r.2 then r.1
    else typeWalk textContainsInsensitive dtClassNameHasSuffix r.1 rest

/-- The closure `textContainsInsensitive` (lines 95-99). -/
def textContainsInsensitive (lower : Char → Char) (text : Str) : Verifier :=
  fun s => Contains (ToLower lower text) s

/-- The closure `dtClassNameHasSuffix` (lines 101-103). -/
def dtClassNameHasSuffix (dtClassName : Str) : Verifier :=
  fun s => HasSuffix dtClassName s

/-- Lines 92-123 of `parseIndex`: the element type given to a candidate with
context text `text` and class attribute `dtClassName`. -/
def classify (lower : Char → Char) (text dtClassName : Str) : ElementType :=
  typeWalk (textContainsInsensitive lower text) (dtClassNameHasSuffix dtClassName)
    .NotFound ALL_ELEMENT_TYPES

/-! ## The parsed document (`golang.org/x/net/html`) -/

/-- The tag atoms `parseIndex` tells apart; `other` stands for every other value of
`atom.Atom`, the value 0 of nodes that are not elements included. -/
inductive Atom where
  | A
  | Span
  | Code
  | I
  | B
  | Dt
  | other (code : Nat)
  deriving DecidableEq, Repr

/-- The node `html.Node`, with the fields `parseIndex` and its callees read; the
sibling and parent links are given by the position in `children`. -/
inductive Node where
  | mk (DataAtom : Atom) (Data : Str) (Attr : List (Str × Str)) (children : List Node)

/-- The field `DataAtom`. -/
def Node.DataAtom : Node → Atom
  | .mk a _ _ _ => a

/-- The children of a node, first child first. -/
def Node.children : Node → List Node
  | .mk _ _ _ cs => cs

/-- A pointer `*html.Node` into a document: the child indices on the way from the
node up to the root, so the root is `[]` and `i :: p` is child number `i` of `p`. -/
abbrev Ptr := List Nat

/-- The node found from `n` by the child indices `path`, outermost first. -/
def Node.descend : Node → List Nat → Option Node
  | n, [] => some n
  | n, i :: rest =>
    match n.children.get? i with
    | some c => c.descend rest
    | none => none

/-- The node a pointer points to. -/
def deref (root : Node) (p : Ptr) : Option Node :=
  root.descend p.reverse

/-- The field `Parent` of the node at `p`: nil (`none`) at the root. -/
def Parent : Ptr → Option Ptr
  | [] => none
  | _ :: p => some p

/-- The field `FirstChild` of the node at `p`: nil (`none`) when it has no child. -/
def FirstChild (root : Node) (p : Ptr) : Option Ptr :=
  match deref root p with
  | some n => if n.children.isEmpty then none else some (0 :: p)
  | none => none

/-- The functions of other packages that `parseIndex` calls. -/
structure Library where
  /-- The rune map `unicode.ToLower` behind `strings.ToLower`. -/
  ToLower : Char → Char
  /-- The call `scrape.Text(node)`. -/
  Text : Node → Str
  /-- The call `scrape.Attr(node, key)`. -/
  Attr : Node → Str → Str
  /-- The call `scrape.FindAll(root, scrape.ByTag(atom.A))`. -/
  FindAll : Node → List Ptr

/-! ## parser.go: `parseIndex` -/

/-- What lines 69-89 do with one anchor: a nil pointer is dereferenced, the anchor
is skipped by a `continue`, or line 91 is reached with `parentTag`. -/
inductive Located where
  | nilDereference
  | skipped
  | candidate (parentTag : Ptr)
  deriving DecidableEq, Repr

/-- Lines 87-89: the test that `parentTag` is a `dt`. -/
def checkDt (root : Node) (parentTag : Ptr) : Located :=
  match deref root parentTag with
  | none => .nilDereference
  | some parentNode =>
    if parentNode.DataAtom != Atom.Dt then .skipped else .candidate parentTag

/-- Lines 69-89 of `parseIndex` for the anchor `tag`. -/
def locate (root : Node) (tag : Ptr) : Located :=
  match Parent tag with
  | none => .nilDereference
  | some parentTag =>
    match deref root parentTag with
    | none => .nilDereference
    | some parentNode =>
      if FirstChild root parentTag != some tag then .skipped
      else
        let isParentSpan := parentNode.DataAtom == Atom.Span
        let isParentCode := parentNode.DataAtom == Atom.Code
        let isParentItalic := parentNode.DataAtom == Atom.I
        let isParentBold := parentNode.DataAtom == Atom.B
        if isParentSpan || isParentCode || isParentItalic || isParentBold then
          match Parent parentTag with
          | none => .nilDereference
          | some parentTag2 =>
            if FirstChild root parentTag2 != Parent tag then .skipped
            else checkDt root parentTag2
        else checkDt root parentTag

/-- What one turn of the loop over `anchorTags` (lines 68-136) does. -/
inductive TagResult where
  | nilDereference
  | skipped
  | warned (text dtClassName : Str)
  | handed (entry : IndexEntry)
  deriving DecidableEq, Repr

/-- One turn of the loop over `anchorTags` (lines 68-136). -/
def processTag (lib : Library) (root : Node) (tag : Ptr) : TagResult :=
  match locate root tag with
  | .nilDereference => .nilDereference
  | .skipped => .skipped
  | .candidate parentTag =>
    match deref root parentTag, deref root tag with
    | some parentNode, some tagNode =>
      let text := lib.Text parentNode
      let dtClassName := lib.Attr parentNode "class".toList
      let tagType := classify lib.ToLower text dtClassName
      if tagType = .NotFound then .warned text dtClassName
      else
        let name := lib.Text tagNode
        let path := lib.Attr tagNode "href".toList
        .handed { name := name, elementType := tagType, path := path }
    | _, _ => .nilDereference

/-- The loop over `anchorTags` (lines 68-136), threading the state `σ` of the entry
handler; `none` when a nil pointer is dereferenced. -/
def tagLoop {σ : Type} (lib : Library) (root : Node) (entryHandler : IndexEntry → σ → σ) :
    List Ptr → σ → Option σ
  | [], s => some s
  | tag :: rest, s =>
    match processTag lib root tag with
    | .nilDereference => none
    | .skipped => tagLoop lib root entryHandler rest s
    | .warned _ _ => tagLoop lib root entryHandler rest s
    | .handed entry => tagLoop lib root entryHandler rest (entryHandler entry s)

/-- The function `parseIndex`; `parsed` is the result of opening and parsing the
index file, `none` when either fails (the function then returns at once). -/
def parseIndex {σ : Type} (lib : Library) (parsed : Option Node)
    (entryHandler : IndexEntry → σ → σ) (s : σ) : Option σ :=
  match parsed with
  | none => some s
  | some root => tagLoop lib root entryHandler (lib.FindAll root) s

/-! ## main.go: `index` -/

/-- The state of the sink in `index`: the map `added` and the rows of the table
`searchIndex` in insertion order (columns name, type, path). -/
structure Sink where
  added : Str → Bool
  rows : List (Str × Str × Str)

/-- The sink before the first file: `make(map[string]bool)` and an empty table. -/
def Sink.empty : Sink :=
  { added := fun _ => false, rows := [] }

/-- The closure handed to `parseIndex` in `index` (lines 274-294), for an `Exec`
that succeeds. -/
def entryHandler (entry : IndexEntry) (s : Sink) : Sink :=
  let name := entry.name
  let elementType := value entry.elementType
  let path := entry.path
  let uniqueKey := name ++ elementType ++ path
  if !s.added uniqueKey then
    { added := fun k => if k = uniqueKey then true else s.added k,
      rows := s.rows ++ [(name, elementType, path)] }
  else s

/-- The loop over `indicesToIndex` in `index` (lines 273-295). -/
def indexLoop (lib : Library) : List (Option Node) → Sink → Option Sink
  | [], s => some s
  | toIndex :: rest, s =>
    match parseIndex lib toIndex entryHandler s with
    | some s1 => indexLoop lib rest s1
    | none => none

/-- The rows `index` inserts for the parsed index files `indicesToIndex`. -/
def index (lib : Library) (indicesToIndex : List (Option Node)) :
    Option (List (Str × Str × Str)) :=
  (indexLoop lib indicesToIndex Sink.empty).map Sink.rows

/-! ## The notions the properties are stated with -/

/-- Some evaluator of the chain registered for `T` returns true. -/
def chainMatches (T : ElementType) (textContainsInsensitive dtClassNameHasSuffix : Verifier) :
    Bool :=
  (ELEMENT_TYPE_TO_TYPE_EVALUATORS T).any
    (fun evaluator => evaluator textContainsInsensitive dtClassNameHasSuffix)

/-- The type `T1` stands before `T2` in the priority order `ALL_ELEMENT_TYPES`. -/
def precedes (T1 T2 : ElementType) : Prop :=
  T1 ∈ ALL_ELEMENT_TYPES ∧ T2 ∈ ALL_ELEMENT_TYPES ∧
    ALL_ELEMENT_TYPES.indexOf T1 < ALL_ELEMENT_TYPES.indexOf T2

instance (T1 T2 : ElementType) : Decidable (precedes T1 T2) := by
  unfold precedes
  exact inferInstance

/-- The substrings listed in the rule table of the specification. -/
def ruleSubstrings : List Str :=
  [ "class in".toList, "- class".toList, "static method in".toList, "method in".toList,
    "static variable in".toList, "field in".toList, "variable in".toList,
    "constructor".toList, "interface in".toList, "- interface".toList,
    "exception in".toList, "- exception".toList, "error in".toList, "- error".toList,
    "enum in".toList, "- enum".toList, "trait in".toList, "annotation type".toList,
    "package".toList ]

/-- The class-attribute suffixes listed in the rule table of the specification. -/
def ruleSuffixes : List Str :=
  [ "class".toList, "method".toList, "field".toList, "constructor".toList,
    "interface".toList, "exception".toList, "error".toList, "enum".toList,
    "annotation".toList, "package".toList ]

/-- The upper- and the lower-case form of each of the 26 ASCII letters. -/
def asciiLetterPairs : List (Char × Char) :=
  [ ('A', 'a'), ('B', 'b'), ('C', 'c'), ('D', 'd'), ('E', 'e'), ('F', 'f'), ('G', 'g'),
    ('H', 'h'), ('I', 'i'), ('J', 'j'), ('K', 'k'), ('L', 'l'), ('M', 'm'), ('N', 'n'),
    ('O', 'o'), ('P', 'p'), ('Q', 'q'), ('R', 'r'), ('S', 's'), ('T', 't'), ('U', 'u'),
    ('V', 'v'), ('W', 'w'), ('X', 'x'), ('Y', 'y'), ('Z', 'z') ]

/-- The upper- and lower-case forms of the letters of the basic Latin alphabet in
Unicode: the ASCII pairs, the long s U+017F, a lower-case letter whose upper-case form
is `S`, and the Kelvin sign U+212A, an upper-case letter whose lower-case form is `k`. -/
def latinLetterPairs : List (Char × Char) :=
  asciiLetterPairs ++ [('S', 'ſ'), (Char.ofNat 0x212A, 'k')]

/-- The runes `a` and `b` are the same rune, or one is the upper-case and the other the
lower-case form of a letter, for the table `pairs` of (upper, lower) forms. -/
def caseVariants (pairs : List (Char × Char)) (a b : Char) : Bool :=
  a == b || pairs.contains (a, b) || pairs.contains (b, a)

/-- Two texts that differ only in the letter case of their characters: they have the
same length and, position by position, the same rune or the two case forms of one
letter. No use is made of the rune map of the classifier. -/
def differOnlyInCase (pairs : List (Char × Char)) : Str → Str → Bool
  | [], [] => true
  | a :: t1, b :: t2 => caseVariants pairs a b && differOnlyInCase pairs t1 t2
  | _, _ => false

/-- The condition of a type's row of the rule table once the "static" text checks
are left out of the Method and Field rows. -/
def matchesWithoutStatic (T : ElementType) (textContains classHasSuffix : Verifier) : Bool :=
  match T with
  | .Method => textContains "method in".toList || classHasSuffix "method".toList
  | .Field =>
    textContains "field in".toList || textContains "variable in".toList
      || classHasSuffix "field".toList
  | T => chainMatches T textContains classHasSuffix

/-- Classification by the rule table without the "static" text checks: the first type
of the priority order whose condition holds, `NotFound` when none does. -/
def classifyWithoutStatic (lower : Char → Char) (text dtClassName : Str) : ElementType :=
  match ALL_ELEMENT_TYPES.find? (fun T =>
      matchesWithoutStatic T (textContainsInsensitive lower text)
        (dtClassNameHasSuffix dtClassName)) with
  | some T => T
  | none => .NotFound

/-- The context text contains `s`, letter case aside: `s` is a contiguous block of the
lower-cased text. -/
def textHas (lower : Char → Char) (text : Str) (s : String) : Prop :=
  s.toList <:+: ToLower lower text

/-- The class attribute ends with `s`. -/
def classEndsWith (dtClassName : Str) (s : String) : Prop :=
  s.toList <:+ dtClassName

/-- The class-attribute suffix that the chain of a type tests, when it tests one. -/
def classSuffixOf : ElementType → Option Str
  | .Class => some "class".toList
  | .Method => some "method".toList
  | .Field => some "field".toList
  | .Constructor => some "constructor".toList
  | .Interface => some "interface".toList
  | .Exception => some "exception".toList
  | .Error => some "error".toList
  | .Enum => some "enum".toList
  | .Notation => some "annotation".toList
  | .Package => some "package".toList
  | .Trait => none
  | .NotFound => none

/-- The tag of the node at `p`, when there is one. -/
def atomAt (root : Node) (p : Ptr) : Option Atom :=
  (deref root p).map Node.DataAtom

/-- The inline wrappers span, code, i and b. -/
def isWrapper : Atom → Bool
  | .Span => true
  | .Code => true
  | .I => true
  | .B => true
  | _ => false

/-- The dt that makes the anchor at `tag` a candidate, as the specification words it:
the anchor is a first child and its parent is a dt, or its parent is a wrapper that is
itself a first child and whose parent is a dt. -/
def termElementOf (root : Node) (tag : Ptr) : Option Ptr :=
  match tag with
  | 0 :: parent =>
    if atomAt root parent = some Atom.Dt then some parent
    else
      match parent with
      | 0 :: grandparent =>
        if (atomAt root parent).any isWrapper ∧ atomAt root grandparent = some Atom.Dt
        then some grandparent
        else none
      | _ => none
  | _ => none

/-- A library for worked examples: ASCII lower-casing, the `Data` field as the text of
a node, attribute lookup in `Attr`, and a given list of anchors. -/
def exampleLibrary (anchors : List Ptr) : Library where
  ToLower := Char.toLower
  Text := fun n => match n with | .mk _ d _ _ => d
  Attr := fun n key => match n with
    | .mk _ _ attrs _ => match attrs.lookup key with
      | some v => v
      | none => []
  FindAll := fun _ => anchors

/-- The anchor of an index entry for a class `MyClass`. -/
def exampleAnchor : Node :=
  .mk Atom.A "MyClass".toList [("href".toList, "com/example/MyClass.html".toList)] []

/-- A small document: a dt of class `memberNameLink` whose first child is a span that
wraps `exampleAnchor`, followed by a second anchor. -/
def exampleDocument : Node :=
  .mk (Atom.other 0) [] []
    [ .mk Atom.Dt "MyClass - class in com.example".toList
        [("class".toList, "memberNameLink".toList)]
        [ .mk Atom.Span [] [] [exampleAnchor],
          .mk Atom.A "com.example".toList [("href".toList, "com/example/pkg.html".toList)] [] ] ]

/-- A dt whose text and class attribute carry none of the signals of the rule table. -/
def plainDocument : Node :=
  .mk (Atom.other 0) [] []
    [ .mk Atom.Dt "MyClass - see com.example".toList
        [("class".toList, "memberNameLink".toList)] [exampleAnchor] ]


/-! ## Strings: the Go functions compute prefix, infix and suffix -/

theorem HasPrefix_iff (s p : Str) : HasPrefix s p = true ↔ p <+: s := by
  induction s generalizing p with
  | nil => cases p <;> simp [HasPrefix]
  | cons c s ih =>
    cases p with
    | nil => simp [HasPrefix]
    | cons a ps =>
      simp only [HasPrefix, Bool.and_eq_true, beq_iff_eq, ih, List.cons_prefix_cons]
      constructor
      · rintro ⟨h1, h2⟩
        exact ⟨h1.symm, h2⟩
      · rintro ⟨h1, h2⟩
        exact ⟨h1.symm, h2⟩

theorem Contains_iff (s sub : Str) : Contains s sub = true ↔ sub <:+: s := by
  induction s with
  | nil => simp [Contains, HasPrefix_iff, List.prefix_nil, List.infix_nil]
  | cons c s ih =>
    simp only [Contains, Bool.or_eq_true, HasPrefix_iff, ih, List.infix_cons_iff]

theorem HasSuffix_iff (s suffix : Str) : HasSuffix s suffix = true ↔ suffix <:+ s := by
  simp only [HasSuffix, HasPrefix_iff, List.reverse_prefix]

/-! ## The type walk -/

theorem evaluatorLoop_eq (T : ElementType) (tc hs : Verifier) (tagType : ElementType)
    (evs : List TypeEvaluator) :
    evaluatorLoop T tc hs tagType evs
      = if evs.any (fun ev => ev tc hs) then (T, true) else (tagType, false) := by
  induction evs with
  | nil => simp [evaluatorLoop]
  | cons ev rest ih =>
    by_cases h : ev tc hs = true
    · simp [evaluatorLoop, h]
    · simp [evaluatorLoop, h, ih]

theorem typeWalk_cons (tc hs : Verifier) (tagType T : ElementType) (rest : List ElementType) :
    typeWalk tc hs tagType (T :: rest)
      = if chainMatches T tc hs then T else typeWalk tc hs tagType rest := by
  simp only [typeWalk, evaluatorLoop_eq, chainMatches]
  split <;> simp_all

theorem typeWalk_nil (tc hs : Verifier) (tagType : ElementType) :
    typeWalk tc hs tagType [] = tagType := rfl

theorem typeWalk_of_none (tc hs : Verifier) (tagType : ElementType) (l : List ElementType)
    (h : ∀ T ∈ l, chainMatches T tc hs = false) : typeWalk tc hs tagType l = tagType := by
  induction l with
  | nil => rfl
  | cons T rest ih =>
    rw [typeWalk_cons, h T (List.mem_cons_self _ _)]
    simpa using ih (fun T' hT' => h T' (List.mem_cons_of_mem _ hT'))

theorem typeWalk_of_unique (tc hs : Verifier) (tagType T0 : ElementType)
    (l : List ElementType) (hmem : T0 ∈ l) (h0 : chainMatches T0 tc hs = true)
    (huniq : ∀ T ∈ l, chainMatches T tc hs = true → T = T0) :
    typeWalk tc hs tagType l = T0 := by
  induction l with
  | nil => cases hmem
  | cons T rest ih =>
    rw [typeWalk_cons]
    by_cases hT : chainMatches T tc hs = true
    · rw [if_pos hT]
      exact huniq T (List.mem_cons_self _ _) hT
    · have hne : T ≠ T0 := fun e => hT (e ▸ h0)
      have hmem' : T0 ∈ rest := by
        rcases List.mem_cons.1 hmem with e | e
        · exact absurd e.symm hne
        · exact e
      rw [if_neg hT]
      exact ih hmem' (fun T' hT' => huniq T' (List.mem_cons_of_mem _ hT'))

theorem classify_eq (lower : Char → Char) (text cls : Str) :
    classify lower text cls =
      let tc := textContainsInsensitive lower text
      let hs := dtClassNameHasSuffix cls
      if chainMatches .Class tc hs then .Class
      else if chainMatches .Method tc hs then .Method
      else if chainMatches .Field tc hs then .Field
      else if chainMatches .Constructor tc hs then .Constructor
      else if chainMatches .Interface tc hs then .Interface
      else if chainMatches .Exception tc hs then .Exception
      else if chainMatches .Error tc hs then .Error
      else if chainMatches .Enum tc hs then .Enum
      else if chainMatches .Trait tc hs then .Trait
      else if chainMatches .Notation tc hs then .Notation
      else if chainMatches .Package tc hs then .Package
      else .NotFound := by
  simp only [classify, ALL_ELEMENT_TYPES, typeWalk_cons, typeWalk_nil]


theorem typeWalk_mem (tc hs : Verifier) (tagType : ElementType) (l : List ElementType) :
    typeWalk tc hs tagType l = tagType ∨ typeWalk tc hs tagType l ∈ l := by
  induction l with
  | nil => left; rfl
  | cons a rest ih =>
    rw [typeWalk_cons]
    by_cases h : chainMatches a tc hs = true
    · rw [if_pos h]; right; exact List.mem_cons_self _ _
    · rw [if_neg h]
      rcases ih with e | e
      · left; exact e
      · right; exact List.mem_cons_of_mem _ e

theorem typeWalk_eq_iff (tc hs : Verifier) (tagType : ElementType) (l : List ElementType)
    (hnd : l.Nodup) (htt : tagType ∉ l) (T : ElementType) (hT : T ∈ l) :
    typeWalk tc hs tagType l = T ↔
      (chainMatches T tc hs = true ∧
        ∀ T' ∈ l, l.indexOf T' < l.indexOf T → chainMatches T' tc hs = false) := by
  induction l with
  | nil => cases hT
  | cons a rest ih =>
    have hnd' := List.nodup_cons.1 hnd
    have htt1 : tagType ≠ a := fun e => htt (e ▸ List.mem_cons_self _ _)
    have htt2 : tagType ∉ rest := fun e => htt (List.mem_cons_of_mem _ e)
    rw [typeWalk_cons]
    by_cases hTa : T = a
    · subst hTa
      by_cases h : chainMatches T tc hs = true
      · rw [if_pos h]
        refine ⟨fun _ => ⟨h, fun T' _ hlt => ?_⟩, fun _ => rfl⟩
        rw [List.indexOf_cons_self] at hlt
        exact absurd hlt (Nat.not_lt_zero _)
      · rw [if_neg h]
        constructor
        · intro e
          exfalso
          rcases typeWalk_mem tc hs tagType rest with e' | e'
          · exact htt1 (e'.symm.trans e)
          · exact hnd'.1 (e ▸ e')
        · rintro ⟨h1, _⟩
          exact absurd h1 h
    · have hTr : T ∈ rest := (List.mem_cons.1 hT).resolve_left hTa
      have ih' := ih hnd'.2 htt2 hTr
      by_cases h : chainMatches a tc hs = true
      · rw [if_pos h]
        constructor
        · intro e
          exact absurd e.symm hTa
        · rintro ⟨_, h2⟩
          have h3 := h2 a (List.mem_cons_self _ _) (by
            rw [List.indexOf_cons_self, List.indexOf_cons_ne _ (Ne.symm hTa)]
            exact Nat.succ_pos _)
          rw [h] at h3
          cases h3
      · rw [if_neg h, ih']
        constructor
        · rintro ⟨h1, h2⟩
          refine ⟨h1, fun T' hT' hlt => ?_⟩
          rcases List.mem_cons.1 hT' with e | e
          · subst e
            simpa using h
          · have hne : T' ≠ a := fun e' => hnd'.1 (e' ▸ e)
            rw [List.indexOf_cons_ne _ (Ne.symm hne),
              List.indexOf_cons_ne _ (Ne.symm hTa)] at hlt
            exact h2 T' e (Nat.lt_of_succ_lt_succ hlt)
        · rintro ⟨h1, h2⟩
          refine ⟨h1, fun T' hT' hlt => ?_⟩
          have hne : T' ≠ a := fun e' => hnd'.1 (e' ▸ hT')
          apply h2 T' (List.mem_cons_of_mem _ hT')
          rw [List.indexOf_cons_ne _ (Ne.symm hne), List.indexOf_cons_ne _ (Ne.symm hTa)]
          exact Nat.succ_lt_succ hlt

theorem ALL_ELEMENT_TYPES_nodup : ALL_ELEMENT_TYPES.Nodup := by decide

theorem NotFound_not_mem : ElementType.NotFound ∉ ALL_ELEMENT_TYPES := by decide

/-- C1: the type walk returns `T` exactly when the chain of `T` matches and the chain of
no type that precedes `T` in the priority order matches. -/
theorem classify_first_match (lower : Char → Char) (text dtClassName : Str) (T : ElementType)
    (hT : T ∈ ALL_ELEMENT_TYPES) :
    classify lower text dtClassName = T ↔
      (chainMatches T (textContainsInsensitive lower text)
          (dtClassNameHasSuffix dtClassName) = true ∧
        ∀ T', precedes T' T →
          chainMatches T' (textContainsInsensitive lower text)
            (dtClassNameHasSuffix dtClassName) = false) := by
  unfold classify
  rw [typeWalk_eq_iff _ _ _ _ ALL_ELEMENT_TYPES_nodup NotFound_not_mem T hT]
  constructor
  · rintro ⟨h1, h2⟩
    exact ⟨h1, fun T' hp => h2 T' hp.1 hp.2.2⟩
  · rintro ⟨h1, h2⟩
    exact ⟨h1, fun T' hT' hlt => h2 T' ⟨hT', hT, hlt⟩⟩

theorem classify_first_match_witness :
    ElementType.Field ∈ ALL_ELEMENT_TYPES ∧
      (classify Char.toLower "count - variable in com.example.MyClass".toList [] = .Field ↔
        (chainMatches .Field
            (textContainsInsensitive Char.toLower
              "count - variable in com.example.MyClass".toList)
            (dtClassNameHasSuffix []) = true ∧
          ∀ T', precedes T' .Field →
            chainMatches T'
              (textContainsInsensitive Char.toLower
                "count - variable in com.example.MyClass".toList)
              (dtClassNameHasSuffix []) = false)) :=
  ⟨by decide, classify_first_match Char.toLower _ [] .Field (by decide)⟩


theorem chainMatches_NotFound (tc hs : Verifier) : chainMatches .NotFound tc hs = false := rfl

theorem typeWalk_eq_find (tc hs : Verifier) (tagType : ElementType) (l : List ElementType) :
    typeWalk tc hs tagType l =
      match l.find? (fun T => chainMatches T tc hs) with
      | some T => T
      | none => tagType := by
  induction l with
  | nil => rfl
  | cons a rest ih =>
    rw [typeWalk_cons, List.find?_cons]
    by_cases h : chainMatches a tc hs = true
    · simp [h]
    · simp only [Bool.not_eq_true] at h
      simp [h, ih]

theorem typeWalk_eq_tagType_iff (tc hs : Verifier) (tagType : ElementType)
    (l : List ElementType) (htt : tagType ∉ l) :
    typeWalk tc hs tagType l = tagType ↔ ∀ T ∈ l, chainMatches T tc hs = false := by
  induction l with
  | nil => simp [typeWalk_nil]
  | cons a rest ih =>
    have htt1 : a ≠ tagType := fun e => htt (e ▸ List.mem_cons_self _ _)
    have htt2 : tagType ∉ rest := fun e => htt (List.mem_cons_of_mem _ e)
    rw [typeWalk_cons, List.forall_mem_cons]
    by_cases h : chainMatches a tc hs = true
    · simp [h, htt1]
    · simp only [Bool.not_eq_true] at h
      simp [h, ih htt2]

theorem classify_eq_NotFound_iff (lower : Char → Char) (text dtClassName : Str) :
    classify lower text dtClassName = .NotFound ↔
      ∀ T, chainMatches T (textContainsInsensitive lower text)
        (dtClassNameHasSuffix dtClassName) = false := by
  unfold classify
  rw [typeWalk_eq_tagType_iff _ _ _ _ NotFound_not_mem]
  constructor
  · intro h T
    by_cases hT : T ∈ ALL_ELEMENT_TYPES
    · exact h T hT
    · cases T <;> first | rfl | exact absurd (by decide) hT
  · intro h T _
    exact h T

/-- C3: for each of the eleven types, the registered chain matches exactly when the
condition of the type's row of the rule table holds. -/
theorem chain_matches_rule_table (lower : Char → Char) (text dtClassName : Str) :
    (chainMatches .Class (textContainsInsensitive lower text)
        (dtClassNameHasSuffix dtClassName) = true ↔
      textHas lower text "class in" ∨ textHas lower text "- class"
        ∨ classEndsWith dtClassName "class") ∧
    (chainMatches .Method (textContainsInsensitive lower text)
        (dtClassNameHasSuffix dtClassName) = true ↔
      textHas lower text "static method in" ∨ textHas lower text "method in"
        ∨ classEndsWith dtClassName "method") ∧
    (chainMatches .Field (textContainsInsensitive lower text)
        (dtClassNameHasSuffix dtClassName) = true ↔
      textHas lower text "static variable in" ∨ textHas lower text "field in"
        ∨ textHas lower text "variable in" ∨ classEndsWith dtClassName "field") ∧
    (chainMatches .Constructor (textContainsInsensitive lower text)
        (dtClassNameHasSuffix dtClassName) = true ↔
      textHas lower text "constructor" ∨ classEndsWith dtClassName "constructor") ∧
    (chainMatches .Interface (textContainsInsensitive lower text)
        (dtClassNameHasSuffix dtClassName) = true ↔
      textHas lower text "interface in" ∨ textHas lower text "- interface"
        ∨ classEndsWith dtClassName "interface") ∧
    (chainMatches .Exception (textContainsInsensitive lower text)
        (dtClassNameHasSuffix dtClassName) = true ↔
      textHas lower text "exception in" ∨ textHas lower text "- exception"
        ∨ classEndsWith dtClassName "exception") ∧
    (chainMatches .Error (textContainsInsensitive lower text)
        (dtClassNameHasSuffix dtClassName) = true ↔
      textHas lower text "error in" ∨ textHas lower text "- error"
        ∨ classEndsWith dtClassName "error") ∧
    (chainMatches .Enum (textContainsInsensitive lower text)
        (dtClassNameHasSuffix dtClassName) = true ↔
      textHas lower text "enum in" ∨ textHas lower text "- enum"
        ∨ classEndsWith dtClassName "enum") ∧
    (chainMatches .Trait (textContainsInsensitive lower text)
        (dtClassNameHasSuffix dtClassName) = true ↔
      textHas lower text "trait in") ∧
    (chainMatches .Notation (textContainsInsensitive lower text)
        (dtClassNameHasSuffix dtClassName) = true ↔
      textHas lower text "annotation type" ∨ classEndsWith dtClassName "annotation") ∧
    (chainMatches .Package (textContainsInsensitive lower text)
        (dtClassNameHasSuffix dtClassName) = true ↔
      textHas lower text "package" ∨ classEndsWith dtClassName "package") := by
  simp only [chainMatches, ELEMENT_TYPE_TO_TYPE_EVALUATORS, NewTypeEvaluators, List.any_cons,
    List.any_nil, Bool.or_false, isClass, isStaticMethod, isMethod, isStaticField, isField,
    isConstructor, isInterface, isException, isError, isEnum, isTrait, isNotation, isPackage,
    textContainsInsensitive, dtClassNameHasSuffix, Bool.or_eq_true, Contains_iff,
    HasSuffix_iff, textHas, classEndsWith]
  refine ⟨?_, ?_, ?_, ?_, ?_, ?_, ?_, ?_, ?_, ?_, ?_⟩ <;> tauto


theorem static_method_infix : "method in".toList <:+: "static method in".toList := by decide

theorem static_variable_infix : "variable in".toList <:+: "static variable in".toList := by
  decide

theorem matchesWithoutStatic_eq (lower : Char → Char) (text dtClassName : Str)
    (T : ElementType) :
    matchesWithoutStatic T (textContainsInsensitive lower text)
        (dtClassNameHasSuffix dtClassName)
      = chainMatches T (textContainsInsensitive lower text)
        (dtClassNameHasSuffix dtClassName) := by
  have hm : textContainsInsensitive lower text "static method in".toList = true →
      textContainsInsensitive lower text "method in".toList = true := by
    simp only [textContainsInsensitive, Contains_iff]
    exact fun h => static_method_infix.trans h
  have hv : textContainsInsensitive lower text "static variable in".toList = true →
      textContainsInsensitive lower text "variable in".toList = true := by
    simp only [textContainsInsensitive, Contains_iff]
    exact fun h => static_variable_infix.trans h
  generalize textContainsInsensitive lower text = tc at hm hv ⊢
  generalize dtClassNameHasSuffix dtClassName = hs
  cases T <;> try rfl
  · simp only [matchesWithoutStatic, chainMatches, ELEMENT_TYPE_TO_TYPE_EVALUATORS,
      NewTypeEvaluators, List.any_cons, List.any_nil, Bool.or_false, isStaticMethod, isMethod]
    cases h1 : tc "static method in".toList <;> cases h2 : tc "method in".toList <;>
      cases h3 : hs "method".toList <;> simp_all
  · simp only [matchesWithoutStatic, chainMatches, ELEMENT_TYPE_TO_TYPE_EVALUATORS,
      NewTypeEvaluators, List.any_cons, List.any_nil, Bool.or_false, isStaticField, isField]
    cases h1 : tc "static variable in".toList <;> cases h2 : tc "variable in".toList <;>
      cases h3 : hs "field".toList <;> cases h4 : tc "field in".toList <;> simp_all

/-- C9: the "static" text checks add nothing to the Method and Field chains, so
classification is the same with and without them. -/
theorem static_checks_redundant (lower : Char → Char) (text dtClassName : Str) :
    (chainMatches .Method (textContainsInsensitive lower text)
        (dtClassNameHasSuffix dtClassName) = true ↔
      textHas lower text "method in" ∨ classEndsWith dtClassName "method") ∧
    (chainMatches .Field (textContainsInsensitive lower text)
        (dtClassNameHasSuffix dtClassName) = true ↔
      textHas lower text "field in" ∨ textHas lower text "variable in"
        ∨ classEndsWith dtClassName "field") ∧
    classify lower text dtClassName = classifyWithoutStatic lower text dtClassName := by
  refine ⟨?_, ?_, ?_⟩
  · rw [← matchesWithoutStatic_eq]
    simp only [matchesWithoutStatic, textContainsInsensitive, dtClassNameHasSuffix,
      Bool.or_eq_true, Contains_iff, HasSuffix_iff, textHas, classEndsWith]
  · rw [← matchesWithoutStatic_eq]
    simp only [matchesWithoutStatic, textContainsInsensitive, dtClassNameHasSuffix,
      Bool.or_eq_true, Contains_iff, HasSuffix_iff, textHas, classEndsWith, or_assoc]
  · unfold classify classifyWithoutStatic
    rw [typeWalk_eq_find]
    simp only [matchesWithoutStatic_eq]

/-! ## Letter case -/

theorem classify_eq_of_ToLower_eq (lower lower2 : Char → Char) (text1 text2 dtClassName : Str)
    (h : ToLower lower text1 = ToLower lower2 text2) :
    classify lower text1 dtClassName = classify lower2 text2 dtClassName := by
  unfold classify textContainsInsensitive
  rw [h]

/-- Classification reads the rune map only at the runes of the text. -/
theorem classify_congr_lower (lower lower2 : Char → Char) (text dtClassName : Str)
    (h : ∀ c ∈ text, lower c = lower2 c) :
    classify lower text dtClassName = classify lower2 text dtClassName :=
  classify_eq_of_ToLower_eq lower lower2 text text dtClassName (List.map_congr_left h)

theorem lower_eq_of_caseVariants (lower : Char → Char)
    (hlower : ∀ p ∈ asciiLetterPairs, lower p.1 = p.2 ∧ lower p.2 = p.2) (a b : Char)
    (h : caseVariants asciiLetterPairs a b = true) : lower a = lower b := by
  simp only [caseVariants, Bool.or_eq_true, beq_iff_eq] at h
  rcases h with (h | h) | h
  · rw [h]
  · have hp := hlower (a, b) (List.mem_of_elem_eq_true h)
    exact hp.1.trans hp.2.symm
  · have hp := hlower (b, a) (List.mem_of_elem_eq_true h)
    exact hp.2.trans hp.1.symm

theorem ToLower_eq_of_differOnlyInCase (lower : Char → Char)
    (hlower : ∀ p ∈ asciiLetterPairs, lower p.1 = p.2 ∧ lower p.2 = p.2)
    (text1 text2 : Str) (h : differOnlyInCase asciiLetterPairs text1 text2 = true) :
    ToLower lower text1 = ToLower lower text2 := by
  induction text1 generalizing text2 with
  | nil =>
    cases text2 with
    | nil => rfl
    | cons b t2 => simp [differOnlyInCase] at h
  | cons a t1 ih =>
    cases text2 with
    | nil => simp [differOnlyInCase] at h
    | cons b t2 =>
      simp only [differOnlyInCase, Bool.and_eq_true] at h
      simp only [ToLower, List.map_cons, List.cons.injEq]
      exact ⟨lower_eq_of_caseVariants lower hlower a b h.1, ih t2 h.2⟩

/-- C7 as stated fails: the texts "Foo - claſs in p" and "FOO - CLASS IN P" differ only
in letter case, the second being the upper-case form of the first, but lower-casing
leaves the long s U+017F as it is, so the first text has no "class in" and is not
classified while the second is a Class. On every rune of the two texts `Char.toLower`
returns what `unicode.ToLower` returns. -/
theorem case_insensitive_counterexample :
    ¬ (∀ (text1 text2 dtClassName : Str),
        differOnlyInCase latinLetterPairs text1 text2 = true →
        classify Char.toLower text1 dtClassName = classify Char.toLower text2 dtClassName) := by
  intro h
  have h1 := h "Foo - claſs in p".toList "FOO - CLASS IN P".toList [] (by decide)
  revert h1
  decide

/-- C7, amended: when lower-casing sends each ASCII upper-case letter to its lower-case
letter and leaves the ASCII lower-case letters as they are, two context texts that
differ only in the case of ASCII letters are classified alike, whatever the class
attribute. -/
theorem classify_ascii_case_insensitive (lower : Char → Char)
    (text1 text2 dtClassName : Str)
    (hlower : ∀ p ∈ asciiLetterPairs, lower p.1 = p.2 ∧ lower p.2 = p.2)
    (h : differOnlyInCase asciiLetterPairs text1 text2 = true) :
    classify lower text1 dtClassName = classify lower text2 dtClassName :=
  classify_eq_of_ToLower_eq lower lower text1 text2 dtClassName
    (ToLower_eq_of_differOnlyInCase lower hlower text1 text2 h)

theorem classify_ascii_case_insensitive_witness :
    ((∀ p ∈ asciiLetterPairs, Char.toLower p.1 = p.2 ∧ Char.toLower p.2 = p.2) ∧
      differOnlyInCase asciiLetterPairs "MyClass — CLASS IN com.example".toList
        "MyClass — class in com.example".toList = true) ∧
    classify Char.toLower "MyClass — CLASS IN com.example".toList [] = .Class ∧
    classify Char.toLower "MyClass — class in com.example".toList [] = .Class ∧
    classify Char.toLower "MyClass — CLASS IN com.example".toList []
      = classify Char.toLower "MyClass — class in com.example".toList [] :=
  ⟨⟨by decide, by decide⟩, by decide, by decide,
    classify_ascii_case_insensitive Char.toLower _ _ [] (by decide) (by decide)⟩

/-! ## Candidates with no text signal -/

theorem chainMatches_of_no_text (tc hs : Verifier)
    (htext : ∀ s ∈ ruleSubstrings, tc s = false) (T : ElementType) :
    chainMatches T tc hs = true → ∃ s, classSuffixOf T = some s ∧ hs s = true := by
  intro h
  have f1 : tc "class in".toList = false := htext _ (by decide)
  have f2 : tc "- class".toList = false := htext _ (by decide)
  have f3 : tc "static method in".toList = false := htext _ (by decide)
  have f4 : tc "method in".toList = false := htext _ (by decide)
  have f5 : tc "static variable in".toList = false := htext _ (by decide)
  have f6 : tc "field in".toList = false := htext _ (by decide)
  have f7 : tc "variable in".toList = false := htext _ (by decide)
  have f8 : tc "constructor".toList = false := htext _ (by decide)
  have f9 : tc "interface in".toList = false := htext _ (by decide)
  have f10 : tc "- interface".toList = false := htext _ (by decide)
  have f11 : tc "exception in".toList = false := htext _ (by decide)
  have f12 : tc "- exception".toList = false := htext _ (by decide)
  have f13 : tc "error in".toList = false := htext _ (by decide)
  have f14 : tc "- error".toList = false := htext _ (by decide)
  have f15 : tc "enum in".toList = false := htext _ (by decide)
  have f16 : tc "- enum".toList = false := htext _ (by decide)
  have f17 : tc "trait in".toList = false := htext _ (by decide)
  have f18 : tc "annotation type".toList = false := htext _ (by decide)
  have f19 : tc "package".toList = false := htext _ (by decide)
  cases T <;>
    simp only [chainMatches, ELEMENT_TYPE_TO_TYPE_EVALUATORS, NewTypeEvaluators, List.any_cons,
      List.any_nil, Bool.or_false, Bool.false_or, Bool.false_eq_true, isClass,
      isStaticMethod, isMethod, isStaticField, isField, isConstructor, isInterface,
      isException, isError, isEnum, isTrait, isNotation, isPackage, f1, f2, f3, f4, f5, f6,
      f7, f8, f9, f10, f11, f12, f13, f14, f15, f16, f17, f18, f19] at h <;>
    exact ⟨_, rfl, h⟩

theorem classSuffixOf_mem (T : ElementType) (s : Str) (h : classSuffixOf T = some s) :
    s ∈ ruleSuffixes := by
  cases T <;> simp only [classSuffixOf, Option.some.injEq] at h <;>
    first | (subst h; decide) | cases h

theorem classSuffixOf_inj (T T' : ElementType) (s : Str) (h : classSuffixOf T = some s)
    (h' : classSuffixOf T' = some s) : T = T' := by
  have e := h.trans h'.symm
  cases T <;> cases T' <;> first
    | rfl
    | exact absurd e (by decide)
    | cases h

theorem suffix_eq_of_suffix :
    ∀ s1 ∈ ruleSuffixes, ∀ s2 ∈ ruleSuffixes, HasSuffix s2 s1 = true → s1 = s2 := by
  decide

theorem ruleSuffixes_exclusive (dtClassName s1 s2 : Str) (h1 : s1 ∈ ruleSuffixes)
    (h2 : s2 ∈ ruleSuffixes) (e1 : dtClassNameHasSuffix dtClassName s1 = true)
    (e2 : dtClassNameHasSuffix dtClassName s2 = true) : s1 = s2 := by
  simp only [dtClassNameHasSuffix, HasSuffix_iff] at e1 e2
  rcases List.suffix_or_suffix_of_suffix e1 e2 with h | h
  · exact suffix_eq_of_suffix s1 h1 s2 h2 ((HasSuffix_iff _ _).2 h)
  · exact (suffix_eq_of_suffix s2 h2 s1 h1 ((HasSuffix_iff _ _).2 h)).symm

/-- C10: at most one of the ten class-attribute suffix checks succeeds, so for a
candidate whose text matches no rule substring the result of the type walk is the same
for every ordering of the element types. -/
theorem class_suffix_signals_exclusive :
    (∀ dtClassName s1 s2, s1 ∈ ruleSuffixes → s2 ∈ ruleSuffixes →
      dtClassNameHasSuffix dtClassName s1 = true →
      dtClassNameHasSuffix dtClassName s2 = true → s1 = s2) ∧
    (∀ (lower : Char → Char) (text dtClassName : Str) (order : List ElementType),
      order.Perm ALL_ELEMENT_TYPES →
      (∀ s ∈ ruleSubstrings, textContainsInsensitive lower text s = false) →
      typeWalk (textContainsInsensitive lower text) (dtClassNameHasSuffix dtClassName)
        .NotFound order = classify lower text dtClassName) := by
  refine ⟨ruleSuffixes_exclusive, ?_⟩
  intro lower text dtClassName order hperm htext
  unfold classify
  generalize htc : textContainsInsensitive lower text = tc at htext
  by_cases hex : ∃ T0 ∈ ALL_ELEMENT_TYPES,
      chainMatches T0 tc (dtClassNameHasSuffix dtClassName) = true
  · obtain ⟨T0, hmem, h0⟩ := hex
    have huniq : ∀ T, chainMatches T tc (dtClassNameHasSuffix dtClassName) = true → T = T0 := by
      intro T hT
      obtain ⟨s, hs1, hs2⟩ := chainMatches_of_no_text tc _ htext T hT
      obtain ⟨s0, hs01, hs02⟩ := chainMatches_of_no_text tc _ htext T0 h0
      have e := ruleSuffixes_exclusive dtClassName s s0 (classSuffixOf_mem T s hs1)
        (classSuffixOf_mem T0 s0 hs01) hs2 hs02
      subst e
      exact classSuffixOf_inj T T0 s hs1 hs01
    rw [typeWalk_of_unique tc _ _ T0 order (hperm.mem_iff.2 hmem) h0 (fun T _ => huniq T),
      typeWalk_of_unique tc _ _ T0 ALL_ELEMENT_TYPES hmem h0 (fun T _ => huniq T)]
  · have hnone : ∀ T ∈ ALL_ELEMENT_TYPES,
        chainMatches T tc (dtClassNameHasSuffix dtClassName) = false := by
      intro T hT
      by_contra hc
      exact hex ⟨T, hT, by simpa using hc⟩
    rw [typeWalk_of_none tc _ _ order (fun T hT => hnone T (hperm.mem_iff.1 hT)),
      typeWalk_of_none tc _ _ ALL_ELEMENT_TYPES hnone]

theorem class_suffix_signals_exclusive_witness :
    ("error".toList ∈ ruleSuffixes ∧ "error".toList ∈ ruleSuffixes ∧
      dtClassNameHasSuffix "memberNameLink error".toList "error".toList = true) ∧
    (ALL_ELEMENT_TYPES.reverse.Perm ALL_ELEMENT_TYPES ∧
      (∀ s ∈ ruleSubstrings,
        textContainsInsensitive Char.toLower "IOError".toList s = false) ∧
      typeWalk (textContainsInsensitive Char.toLower "IOError".toList)
        (dtClassNameHasSuffix "memberNameLink error".toList) .NotFound
        ALL_ELEMENT_TYPES.reverse = .Error ∧
      typeWalk (textContainsInsensitive Char.toLower "IOError".toList)
        (dtClassNameHasSuffix "memberNameLink error".toList) .NotFound
        ALL_ELEMENT_TYPES.reverse
        = classify Char.toLower "IOError".toList "memberNameLink error".toList) :=
  ⟨⟨by decide, by decide, by decide⟩, List.reverse_perm _, by decide, by decide,
    class_suffix_signals_exclusive.2 Char.toLower _ _ _ (List.reverse_perm _) (by decide)⟩


/-- C4 as stated fails: with three matching chains the earliest one wins, so a
candidate that satisfies the Constructor and the Package chain is not classified as
Constructor when the Class chain matches too. -/
theorem priority_pair_counterexample :
    ¬ (∀ (lower : Char → Char) (text dtClassName : Str) (T1 T2 : ElementType),
        precedes T1 T2 →
        chainMatches T1 (textContainsInsensitive lower text)
          (dtClassNameHasSuffix dtClassName) = true →
        chainMatches T2 (textContainsInsensitive lower text)
          (dtClassNameHasSuffix dtClassName) = true →
        classify lower text dtClassName = T1 ∧ classify lower text dtClassName ≠ T2) := by
  intro h
  have h1 := (h Char.toLower
    "PackageInfo() - constructor for class in package com.example".toList []
    .Constructor .Package (by decide) (by decide) (by decide)).1
  revert h1
  decide

/-- C4, amended: when the chains of `T1` and of a later type `T2` both match,
classification never returns `T2`; it returns `T1` or a type that precedes `T1`, and it
returns `T1` when no type before `T1` matches. -/
theorem priority_wins (lower : Char → Char) (text dtClassName : Str) (T1 T2 : ElementType)
    (hp : precedes T1 T2)
    (h1 : chainMatches T1 (textContainsInsensitive lower text)
      (dtClassNameHasSuffix dtClassName) = true)
    (_h2 : chainMatches T2 (textContainsInsensitive lower text)
      (dtClassNameHasSuffix dtClassName) = true) :
    classify lower text dtClassName ≠ T2 ∧
      (classify lower text dtClassName = T1 ∨ precedes (classify lower text dtClassName) T1) ∧
      ((∀ T0, precedes T0 T1 →
          chainMatches T0 (textContainsInsensitive lower text)
            (dtClassNameHasSuffix dtClassName) = false) →
        classify lower text dtClassName = T1) := by
  refine ⟨?_, ?_, ?_⟩
  · intro e
    have h3 := ((classify_first_match lower text dtClassName T2 hp.2.1).1 e).2 T1 hp
    rw [h1] at h3
    cases h3
  · have hne : classify lower text dtClassName ≠ .NotFound := by
      intro e
      have h3 := (classify_eq_NotFound_iff lower text dtClassName).1 e T1
      rw [h1] at h3
      cases h3
    have hR : classify lower text dtClassName ∈ ALL_ELEMENT_TYPES := by
      rcases typeWalk_mem (textContainsInsensitive lower text)
        (dtClassNameHasSuffix dtClassName) .NotFound ALL_ELEMENT_TYPES with e | e
      · exact absurd e hne
      · exact e
    have hfirst := (classify_first_match lower text dtClassName _ hR).1 rfl
    rcases Nat.lt_trichotomy (ALL_ELEMENT_TYPES.indexOf (classify lower text dtClassName))
      (ALL_ELEMENT_TYPES.indexOf T1) with hlt | heq | hgt
    · exact Or.inr ⟨hR, hp.1, hlt⟩
    · exact Or.inl ((List.indexOf_inj hR hp.1).1 heq)
    · have h3 := hfirst.2 T1 ⟨hp.1, hR, hgt⟩
      rw [h1] at h3
      cases h3
  · intro h
    exact (classify_first_match lower text dtClassName T1 hp.1).2 ⟨h1, h⟩

theorem priority_wins_witness :
    (precedes .Constructor .Package ∧
      chainMatches .Constructor
        (textContainsInsensitive Char.toLower
          "PackageInfo() - constructor for class in package com.example".toList)
        (dtClassNameHasSuffix []) = true ∧
      chainMatches .Package
        (textContainsInsensitive Char.toLower
          "PackageInfo() - constructor for class in package com.example".toList)
        (dtClassNameHasSuffix []) = true) ∧
    classify Char.toLower
      "PackageInfo() - constructor for class in package com.example".toList []
        ≠ .Package :=
  ⟨⟨by decide, by decide, by decide⟩,
    (priority_wins Char.toLower _ [] .Constructor .Package (by decide) (by decide)
      (by decide)).1⟩


/-! ## The document tree -/

theorem descend_append (n : Node) (l : List Nat) (i : Nat) :
    n.descend (l ++ [i]) = (n.descend l).bind (fun m => m.children.get? i) := by
  induction l generalizing n with
  | nil =>
    simp only [List.nil_append, Node.descend, Option.some_bind]
    cases n.children.get? i <;> rfl
  | cons j l ih =>
    simp only [List.cons_append, Node.descend]
    cases n.children.get? j with
    | none => rfl
    | some c => exact ih c

theorem deref_cons (root : Node) (i : Nat) (p : Ptr) :
    deref root (i :: p) = (deref root p).bind (fun m => m.children.get? i) := by
  simp only [deref, List.reverse_cons, descend_append]

theorem deref_nil (root : Node) : deref root [] = some root := rfl

theorem deref_cons_eq_some (root : Node) (i : Nat) (p : Ptr) (c : Node)
    (h : deref root (i :: p) = some c) :
    ∃ m, deref root p = some m ∧ m.children.get? i = some c := by
  rw [deref_cons] at h
  cases hm : deref root p with
  | none => rw [hm] at h; cases h
  | some m => rw [hm] at h; exact ⟨m, rfl, h⟩

theorem FirstChild_of_child (root : Node) (p : Ptr) (m c : Node) (i : Nat)
    (hm : deref root p = some m) (hc : m.children.get? i = some c) :
    FirstChild root p = some (0 :: p) := by
  unfold FirstChild
  rw [hm]
  cases hch : m.children with
  | nil => rw [hch] at hc; cases hc
  | cons a l => simp [hch]

theorem checkDt_eq (root : Node) (p : Ptr) (m : Node) (hm : deref root p = some m) :
    checkDt root p = if m.DataAtom = Atom.Dt then .candidate p else .skipped := by
  unfold checkDt
  rw [hm]
  by_cases h : m.DataAtom = Atom.Dt <;> simp [h]

theorem atomAt_eq (root : Node) (p : Ptr) (m : Node) (hm : deref root p = some m) :
    atomAt root p = some m.DataAtom := by
  unfold atomAt
  rw [hm]
  rfl

theorem wrapper_test (a : Atom) :
    (a == Atom.Span || a == Atom.Code || a == Atom.I || a == Atom.B) = isWrapper a := by
  cases a <;> rfl

theorem isWrapper_ne_Dt (a : Atom) (h : isWrapper a = true) : a ≠ Atom.Dt := by
  intro e
  subst e
  cases h

/-- Lines 69-89 compute the dt of the specification, for an anchor of a document. -/
theorem locate_eq (root : Node) (tag : Ptr) (tagNode : Node)
    (hroot : root.DataAtom = Atom.other 0) (htag : deref root tag = some tagNode)
    (hA : tagNode.DataAtom = Atom.A) :
    locate root tag =
      match termElementOf root tag with
      | some dt => .candidate dt
      | none => .skipped := by
  cases tag with
  | nil =>
    rw [deref_nil] at htag
    cases htag
    rw [hroot] at hA
    cases hA
  | cons i parent =>
    obtain ⟨parentNode, hparent, hchild⟩ := deref_cons_eq_some root i parent tagNode htag
    have hfc := FirstChild_of_child root parent parentNode tagNode i hparent hchild
    have hat := atomAt_eq root parent parentNode hparent
    cases i with
    | succ k =>
      simp [locate, Parent, hparent, hfc, termElementOf]
    | zero =>
      simp only [locate, Parent, hparent, hfc, bne_self_eq_false, Bool.false_eq_true,
        if_false, wrapper_test, termElementOf, hat, Option.some.injEq]
      by_cases hw : isWrapper parentNode.DataAtom = true
      · have hnd := isWrapper_ne_Dt _ hw
        rw [if_pos hw, if_neg hnd]
        cases parent with
        | nil =>
          rw [deref_nil] at hparent
          cases hparent
          rw [hroot] at hw
          cases hw
        | cons j grandparent =>
          obtain ⟨grandNode, hgrand, hgchild⟩ :=
            deref_cons_eq_some root j grandparent parentNode hparent
          have hfc2 := FirstChild_of_child root grandparent grandNode parentNode j hgrand
            hgchild
          have hat2 := atomAt_eq root grandparent grandNode hgrand
          cases j with
          | succ k => simp [hfc2]
          | zero =>
            simp only [hfc2, bne_self_eq_false, Bool.false_eq_true, if_false,
              checkDt_eq root grandparent grandNode hgrand, hat2, Option.any_some, hw,
              true_and, Option.some.injEq]
            by_cases hd : grandNode.DataAtom = Atom.Dt <;> simp [hd]
      · rw [if_neg hw, checkDt_eq root parent parentNode hparent]
        by_cases hd : parentNode.DataAtom = Atom.Dt
        · simp [hd]
        · rw [if_neg hd, if_neg hd]
          cases parent with
          | nil => rfl
          | cons j grandparent =>
            cases j with
            | succ k => rfl
            | zero => simp [Option.any_some, hw]

theorem termElementOf_deref (root : Node) (tag dt : Ptr) (tagNode : Node)
    (htag : deref root tag = some tagNode) (h : termElementOf root tag = some dt) :
    ∃ dtNode, deref root dt = some dtNode ∧ dtNode.DataAtom = Atom.Dt := by
  have key : atomAt root dt = some Atom.Dt := by
    cases tag with
    | nil => simp [termElementOf] at h
    | cons i parent =>
      cases i with
      | succ k => simp [termElementOf] at h
      | zero =>
        simp only [termElementOf] at h
        by_cases hd : atomAt root parent = some Atom.Dt
        · rw [if_pos hd] at h
          cases h
          exact hd
        · rw [if_neg hd] at h
          cases parent with
          | nil => simp at h
          | cons j grandparent =>
            cases j with
            | succ k => simp at h
            | zero =>
              simp only at h
              split at h
              · rename_i hc
                cases h
                exact hc.2
              · cases h
  unfold atomAt at key
  cases hdt : deref root dt with
  | none => rw [hdt] at key; cases key
  | some dtNode =>
    rw [hdt] at key
    exact ⟨dtNode, rfl, by simpa using key⟩


/-! ## The structural filter -/

theorem processTag_of_candidate (lib : Library) (root : Node) (tag dt : Ptr)
    (tagNode dtNode : Node) (hloc : locate root tag = .candidate dt)
    (hdt : deref root dt = some dtNode) (htag : deref root tag = some tagNode) :
    processTag lib root tag =
      if classify lib.ToLower (lib.Text dtNode) (lib.Attr dtNode "class".toList) = .NotFound
      then .warned (lib.Text dtNode) (lib.Attr dtNode "class".toList)
      else .handed
        { name := lib.Text tagNode,
          elementType :=
            classify lib.ToLower (lib.Text dtNode) (lib.Attr dtNode "class".toList),
          path := lib.Attr tagNode "href".toList } := by
  unfold processTag
  rw [hloc]
  simp only [hdt, htag]

theorem processTag_of_skipped (lib : Library) (root : Node) (tag : Ptr)
    (hloc : locate root tag = .skipped) : processTag lib root tag = .skipped := by
  unfold processTag
  rw [hloc]

/-- C5: for an anchor of a parsed document, lines 69-89 reach the classification
exactly when the anchor is a first child whose parent is a dt, or whose parent is a
span, code, i or b that is itself a first child of a dt; every other anchor is skipped
and leaves the state of the entry handler untouched; and for an accepted anchor,
wrapped or not, the text and the class attribute that are classified are those of the
dt, while name and path are those of the anchor. -/
theorem structural_filter (lib : Library) (root : Node) (tag : Ptr) (tagNode : Node)
    (hroot : root.DataAtom = Atom.other 0) (htag : deref root tag = some tagNode)
    (hA : tagNode.DataAtom = Atom.A) :
    (locate root tag =
      match termElementOf root tag with
      | some dt => .candidate dt
      | none => .skipped) ∧
    (termElementOf root tag = none →
      processTag lib root tag = .skipped ∧
      ∀ (σ : Type) (handler : IndexEntry → σ → σ) (rest : List Ptr) (s : σ),
        tagLoop lib root handler (tag :: rest) s = tagLoop lib root handler rest s) ∧
    (∀ dt, termElementOf root tag = some dt →
      ∃ dtNode, deref root dt = some dtNode ∧ dtNode.DataAtom = Atom.Dt ∧
        processTag lib root tag =
          if classify lib.ToLower (lib.Text dtNode) (lib.Attr dtNode "class".toList)
            = .NotFound
          then .warned (lib.Text dtNode) (lib.Attr dtNode "class".toList)
          else .handed
            { name := lib.Text tagNode,
              elementType :=
                classify lib.ToLower (lib.Text dtNode) (lib.Attr dtNode "class".toList),
              path := lib.Attr tagNode "href".toList }) := by
  have hloc := locate_eq root tag tagNode hroot htag hA
  refine ⟨hloc, ?_, ?_⟩
  · intro hnone
    rw [hnone] at hloc
    have hp := processTag_of_skipped lib root tag hloc
    refine ⟨hp, ?_⟩
    intro σ handler rest s
    simp only [tagLoop, hp]
  · intro dt hsome
    rw [hsome] at hloc
    obtain ⟨dtNode, hdt, hatom⟩ := termElementOf_deref root tag dt tagNode htag hsome
    exact ⟨dtNode, hdt, hatom, processTag_of_candidate lib root tag dt tagNode dtNode hloc
      hdt htag⟩

theorem structural_filter_witness :
    (exampleDocument.DataAtom = Atom.other 0 ∧
      deref exampleDocument [0, 0, 0] = some exampleAnchor ∧
      exampleAnchor.DataAtom = Atom.A) ∧
    termElementOf exampleDocument [0, 0, 0] = some [0] ∧
    locate exampleDocument [0, 0, 0] = .candidate [0] ∧
    processTag (exampleLibrary [[0, 0, 0], [1, 0]]) exampleDocument [0, 0, 0] =
      .handed
        { name := "MyClass".toList, elementType := .Class,
          path := "com/example/MyClass.html".toList } :=
  ⟨⟨rfl, rfl, rfl⟩, by decide,
    (structural_filter (exampleLibrary [[0, 0, 0], [1, 0]]) exampleDocument [0, 0, 0]
      exampleAnchor rfl rfl rfl).1.trans (by decide),
    by decide⟩

/-! ## Candidates that match no rule -/

theorem classify_of_no_signal (lower : Char → Char) (text dtClassName : Str)
    (hsub : ∀ s ∈ ruleSubstrings, ¬ s <:+: ToLower lower text)
    (hsuf : ∀ s ∈ ruleSuffixes, ¬ s <:+ dtClassName) :
    classify lower text dtClassName = .NotFound := by
  rw [classify_eq_NotFound_iff]
  intro T
  by_contra hc
  have hT : chainMatches T (textContainsInsensitive lower text)
      (dtClassNameHasSuffix dtClassName) = true := by simpa using hc
  have htext : ∀ s ∈ ruleSubstrings, textContainsInsensitive lower text s = false := by
    intro s hs
    have h := hsub s hs
    rw [← Contains_iff] at h
    simpa [textContainsInsensitive] using h
  obtain ⟨s, hs1, hs2⟩ := chainMatches_of_no_text _ _ htext T hT
  exact hsuf s (classSuffixOf_mem T s hs1) ((HasSuffix_iff _ _).1 hs2)

/-- C2: a candidate whose context text contains none of the substrings of the rule
table, letter case aside, and whose class attribute ends with none of its suffixes is
classified as `NotFound`, and the turn of the loop for it only warns: no entry reaches
the entry handler, whose state is the same before and after the turn. -/
theorem no_signal_is_NotFound (lib : Library) (text dtClassName : Str)
    (hsub : ∀ s ∈ ruleSubstrings, ¬ s <:+: ToLower lib.ToLower text)
    (hsuf : ∀ s ∈ ruleSuffixes, ¬ s <:+ dtClassName) :
    classify lib.ToLower text dtClassName = .NotFound ∧
    ∀ (root : Node) (tag parentTag : Ptr) (parentNode tagNode : Node),
      locate root tag = .candidate parentTag →
      deref root parentTag = some parentNode → deref root tag = some tagNode →
      lib.Text parentNode = text → lib.Attr parentNode "class".toList = dtClassName →
      processTag lib root tag = .warned text dtClassName ∧
      (∀ entry, processTag lib root tag ≠ .handed entry) ∧
      ∀ (σ : Type) (handler : IndexEntry → σ → σ) (rest : List Ptr) (s : σ),
        tagLoop lib root handler (tag :: rest) s = tagLoop lib root handler rest s := by
  have hc := classify_of_no_signal lib.ToLower text dtClassName hsub hsuf
  refine ⟨hc, ?_⟩
  intro root tag parentTag parentNode tagNode hloc hparent htag htext hclass
  have hp : processTag lib root tag = .warned text dtClassName := by
    rw [processTag_of_candidate lib root tag parentTag tagNode parentNode hloc hparent htag,
      htext, hclass, if_pos hc]
  refine ⟨hp, ?_, ?_⟩
  · intro entry e
    rw [hp] at e
    cases e
  · intro σ handler rest s
    simp only [tagLoop, hp]

theorem no_signal_is_NotFound_witness :
    ((∀ s ∈ ruleSubstrings,
        ¬ s <:+: ToLower (exampleLibrary [[0, 0]]).ToLower "MyClass - see com.example".toList) ∧
      (∀ s ∈ ruleSuffixes, ¬ s <:+ "memberNameLink".toList)) ∧
    classify (exampleLibrary [[0, 0]]).ToLower "MyClass - see com.example".toList
      "memberNameLink".toList = .NotFound ∧
    parseIndex (exampleLibrary [[0, 0]]) (some plainDocument)
      (fun entry (s : List IndexEntry) => entry :: s) [] = some [] :=
  ⟨⟨by decide, by decide⟩,
    (no_signal_is_NotFound (exampleLibrary [[0, 0]]) "MyClass - see com.example".toList
      "memberNameLink".toList (by decide) (by decide)).1,
    by decide⟩

/-! ## The labels and the sink -/

/-- C8: `value()` returns the canonical label for each of the eleven element types
other than `NotFound`, none of them empty, and the type column of a row the sink
inserts is `value()` of the entry's element type. -/
theorem value_labels :
    (value .Class = "Class".toList ∧ value .Method = "Method".toList ∧
      value .Field = "Field".toList ∧ value .Constructor = "Constructor".toList ∧
      value .Interface = "Interface".toList ∧ value .Exception = "Exception".toList ∧
      value .Error = "Error".toList ∧ value .Enum = "Enum".toList ∧
      value .Trait = "Trait".toList ∧ value .Notation = "Notation".toList ∧
      value .Package = "Package".toList) ∧
    (∀ T ∈ ALL_ELEMENT_TYPES, value T ≠ []) ∧
    (∀ (entry : IndexEntry) (s : Sink),
      (entryHandler entry s).rows =
        if s.added (entry.name ++ value entry.elementType ++ entry.path) then s.rows
        else s.rows ++ [(entry.name, value entry.elementType, entry.path)]) := by
  refine ⟨by decide, by decide, ?_⟩
  intro entry s
  cases h : s.added (entry.name ++ value entry.elementType ++ entry.path) <;>
    simp only [entryHandler, h] <;> rfl

/-- C6: the key of the map `added` is the concatenation of name, type label and path,
so the triples `("A", "Class", "Class.html")` and `("AClass", "Class", ".html")`, which
differ in name and in path, have the same key and the second one is not inserted. -/
theorem sink_key_collision :
    ("A".toList, value .Class, "Class.html".toList)
      ≠ ("AClass".toList, value .Class, ".html".toList) ∧
    (entryHandler { name := "A".toList, elementType := .Class, path := "Class.html".toList }
      Sink.empty).rows = [("A".toList, "Class".toList, "Class.html".toList)] ∧
    (entryHandler { name := "AClass".toList, elementType := .Class, path := ".html".toList }
      (entryHandler
        { name := "A".toList, elementType := .Class, path := "Class.html".toList }
        Sink.empty)).rows = [("A".toList, "Class".toList, "Class.html".toList)] := by
  refine ⟨by decide, by decide, by decide⟩

end Javadocset
